import Mathlib

/-!
Shallow embedding of the CON5013 diagnostic-console core
(`con5013/core/log_monitor.py` and `con5013/core/terminal_engine.py`)
and proofs about its log-aggregation subsystem and command-execution engine.

Machine conventions used throughout:
* Python `dict`s (insertion-ordered) are embedded as association lists
  `List (String × V)` with an update-in-place-or-append operation, which
  matches CPython dict-assignment ordering semantics.
* `collections.deque(maxlen = n)` is embedded as a `List` together with
  `dequeAppend`, which appends at the tail and trims from the head down to
  capacity (for a list already within capacity this drops at most one
  element, exactly like `deque.append`).
* Clock reads (`time.time()`, `time.strftime(...)`) are passed in as
  explicit arguments.
-/

namespace Con5013

/-- `collections.deque(maxlen := maxlen)` append: add `x` at the tail and
drop the oldest elements so that the capacity is never exceeded. -/
def dequeAppend (maxlen : Nat) (buf : List α) (x : α) : List α :=
  let b := buf ++ [x]
  if maxlen < b.length then b.drop (b.length - maxlen) else b

theorem length_dequeAppend (maxlen : Nat) (buf : List α) (x : α) :
    (dequeAppend maxlen buf x).length = min maxlen (buf.length + 1) := by
  simp only [dequeAppend, List.length_append, List.length_singleton]
  split
  · rw [List.length_drop]
    simp only [List.length_append, List.length_singleton]
    omega
  · simp only [List.length_append, List.length_singleton]
    rename_i hlt
    omega

theorem dequeAppend_eq_drop (maxlen : Nat) (buf : List α) (x : α) :
    dequeAppend maxlen buf x = (buf ++ [x]).drop (buf.length + 1 - maxlen) := by
  simp only [dequeAppend, List.length_append, List.length_singleton]
  split
  · rfl
  · rename_i hlt
    have h0 : buf.length + 1 - maxlen = 0 := by omega
    rw [h0, List.drop_zero]

/-- Folding `dequeAppend` over a stream of inserts retains exactly the
last `maxlen` elements of the whole stream (starting buffer included). -/
theorem foldl_dequeAppend (maxlen : Nat) (xs : List α) (buf : List α)
    (h : buf.length ≤ maxlen) :
    List.foldl (dequeAppend maxlen) buf xs =
      (buf ++ xs).drop (buf.length + xs.length - maxlen) := by
  induction xs generalizing buf with
  | nil =>
      simp only [List.foldl_nil, List.length_nil, Nat.add_zero, List.append_nil]
      have : buf.length - maxlen = 0 := by omega
      rw [this, List.drop_zero]
  | cons x xs ih =>
      have hlen : (dequeAppend maxlen buf x).length ≤ maxlen := by
        rw [length_dequeAppend]; omega
      rw [List.foldl_cons, ih _ hlen, length_dequeAppend,
        dequeAppend_eq_drop]
      have hle : buf.length + 1 - maxlen ≤ (buf ++ [x]).length := by
        simp only [List.length_append, List.length_singleton]; omega
      rw [← List.drop_append_of_le_length hle, List.drop_drop]
      have e2 : buf ++ [x] ++ xs = buf ++ x :: xs := by simp
      rw [e2]
      congr 1
      simp only [List.length_cons]
      omega

/-! ### Python string primitives, embedded over character lists
(The `Substring`-based core versions do not reduce in the kernel, so the
operations the code uses — `startswith`, `split`, `in`, `upper`, `strip`,
slicing — are given equivalent character-list definitions here.) -/

/-- Python `s.startswith(pre)`. -/
def strStartsWith (s pre : String) : Bool :=
  pre.data.isPrefixOf s.data

/-- Python `s.split(sep)` for a one-character separator. -/
def strSplitOnChar (sep : Char) (s : String) : List String :=
  go s.data []
where
  go : List Char → List Char → List String
    | [], acc => [String.mk acc.reverse]
    | c :: rest, acc =>
        if c = sep then String.mk acc.reverse :: go rest [] else go rest (c :: acc)

/-- Python `pat in s` (substring containment). -/
def strContainsSub (s pat : String) : Bool :=
  go s.data
where
  go : List Char → Bool
    | [] => pat.data.isPrefixOf []
    | c :: rest => pat.data.isPrefixOf (c :: rest) || go rest

/-- Python `s.upper()` (ASCII, which is all the code compares). -/
def strToUpper (s : String) : String :=
  String.mk (s.data.map Char.toUpper)

/-- Python `s.strip()`. -/
def strTrim (s : String) : String :=
  String.mk (((s.data.dropWhile Char.isWhitespace).reverse.dropWhile
    Char.isWhitespace).reverse)

/-- Python `s[n:]` (character positions; the tailed files are treated as
character sequences, so byte offsets coincide with character offsets). -/
def strDrop (s : String) (n : Nat) : String :=
  String.mk (s.data.drop n)

/-- Python `len(s)`. -/
def strLen (s : String) : Nat :=
  s.data.length

/-! ### Association lists: the embedding of Python `dict` -/

/-- Python `d.get(k)` / `k in d`: first entry with the given key. -/
def alistGet? (k : String) : List (String × V) → Option V
  | [] => none
  | (k₀, v₀) :: rest => if k₀ = k then some v₀ else alistGet? k rest

/-- Python `d[k] = v`: update the existing entry in place (CPython keeps
its position) or append a new entry at the end. -/
def alistSet (k : String) (v : V) : List (String × V) → List (String × V)
  | [] => [(k, v)]
  | (k₀, v₀) :: rest =>
      if k₀ = k then (k, v) :: rest else (k₀, v₀) :: alistSet k v rest

@[simp] theorem alistGet?_alistSet_self (k : String) (v : V)
    (l : List (String × V)) : alistGet? k (alistSet k v l) = some v := by
  induction l with
  | nil => simp [alistGet?, alistSet]
  | cons p rest ih =>
      obtain ⟨k₀, v₀⟩ := p
      by_cases h : k₀ = k
      · simp [alistGet?, alistSet, h]
      · simp [alistGet?, alistSet, h, ih]

theorem alistGet?_alistSet_ne (k k' : String) (v : V)
    (l : List (String × V)) (h : k ≠ k') :
    alistGet? k' (alistSet k v l) = alistGet? k' l := by
  induction l with
  | nil => simp [alistGet?, alistSet, h]
  | cons p rest ih =>
      obtain ⟨k₀, v₀⟩ := p
      by_cases h₀ : k₀ = k
      · subst h₀
        simp [alistGet?, alistSet, h]
      · simp only [alistSet, if_neg h₀, alistGet?]
        by_cases h₁ : k₀ = k'
        · simp [h₁]
        · simp [h₁, ih]

/-! ### Log monitor (`con5013/core/log_monitor.py`) -/

/-- A log entry, as built by `LogMonitor.add_log_entry`. -/
structure LogEntry where
  timestamp : Nat
  source : String
  level : String
  message : String
  raw : String
deriving DecidableEq

/-- One entry of `LogMonitor.log_sources`: a tailed file's stored state. -/
structure FileSource where
  path : String
  lastPosition : Nat
  lastModified : Nat
deriving DecidableEq

/-- The mutable state of a `LogMonitor` instance (the fields the claims
touch: `max_entries`, `log_sources`, `log_buffers`, `logger_aliases`). -/
structure LogMonitorState where
  maxEntries : Nat
  logSources : List (String × FileSource)
  logBuffers : List (String × List LogEntry)
  loggerAliases : List (String × String)
deriving DecidableEq

/-- The entry record that `add_log_entry(source, level, message)` builds.
`now` is the `time.time()` read and `nowStr` the `time.strftime` read. -/
def mkLogEntry (now : Nat) (nowStr : String) (source level message : String) :
    LogEntry :=
  { timestamp := now
    source := source
    level := strToUpper level
    message := message
    raw := nowStr ++ " " ++ strToUpper level ++ " " ++ message }

/-- `LogMonitor.add_log_entry`: create the buffer (a fresh
`deque(maxlen=self.max_entries)`) if the source has none, then append. -/
def addLogEntry (st : LogMonitorState) (now : Nat) (nowStr : String)
    (source level message : String) : LogMonitorState :=
  let entry := mkLogEntry now nowStr source level message
  let buf := (alistGet? source st.logBuffers).getD []
  { st with logBuffers := alistSet source (dequeAppend st.maxEntries buf entry) st.logBuffers }

/-- One emit event: the two clock reads, the level and the message. -/
abbrev EmitEvent := Nat × String × String × String

/-- The entry produced for one emit event to `source`. -/
def entryOfEvent (source : String) (e : EmitEvent) : LogEntry :=
  mkLogEntry e.1 e.2.1 source e.2.2.1 e.2.2.2

/-- A sequence of `add_log_entry` calls, all to the same source. -/
def emitSeq (st : LogMonitorState) (source : String) (es : List EmitEvent) :
    LogMonitorState :=
  es.foldl (fun s e => addLogEntry s e.1 e.2.1 source e.2.2.1 e.2.2.2) st

theorem emitSeq_maxEntries (st : LogMonitorState) (source : String)
    (es : List EmitEvent) : (emitSeq st source es).maxEntries = st.maxEntries := by
  induction es generalizing st with
  | nil => rfl
  | cons e es ih => exact ih _

theorem emitSeq_buffer (st : LogMonitorState) (source : String)
    (e : EmitEvent) (es : List EmitEvent) :
    alistGet? source (emitSeq st source (e :: es)).logBuffers =
      some (List.foldl (dequeAppend st.maxEntries)
        ((alistGet? source st.logBuffers).getD [])
        ((e :: es).map (entryOfEvent source))) := by
  induction es generalizing st e with
  | nil =>
      simp [emitSeq, addLogEntry, entryOfEvent]
  | cons e' es ih =>
      have hstep : emitSeq st source (e :: e' :: es) =
          emitSeq (addLogEntry st e.1 e.2.1 source e.2.2.1 e.2.2.2) source
            (e' :: es) := rfl
      rw [hstep, ih]
      simp [addLogEntry, entryOfEvent]

/-- C2: for every logical source with buffer capacity `N = max_entries`,
after any sequence of `N + k` emits (`k ≥ 1`) to a source whose buffer
starts empty (or does not exist yet), the buffer holds exactly the last
`N` emitted entries in insertion order, its length is `N`, and a single
`add_log_entry` never pushes any buffer past the capacity. -/
theorem C2_bounded_buffer_fifo (st : LogMonitorState) (source : String)
    (es : List EmitEvent) (k : Nat)
    (hfresh : (alistGet? source st.logBuffers).getD [] = [])
    (hlen : es.length = st.maxEntries + k) (hk : 1 ≤ k) :
    alistGet? source (emitSeq st source es).logBuffers =
        some ((es.map (entryOfEvent source)).drop k)
    ∧ ((es.map (entryOfEvent source)).drop k).length = st.maxEntries
    ∧ (∀ (st' : LogMonitorState) (now : Nat) (nowStr source' level msg s : String),
        ((alistGet? s st'.logBuffers).getD []).length ≤ st'.maxEntries →
        ((alistGet? s (addLogEntry st' now nowStr source' level msg).logBuffers).getD
          []).length ≤ st'.maxEntries) := by
  refine ⟨?_, ?_, ?_⟩
  · cases es with
    | nil => simp only [List.length_nil] at hlen; omega
    | cons e es =>
        rw [emitSeq_buffer, hfresh,
          foldl_dequeAppend _ _ _ (by simp : ([] : List LogEntry).length ≤ st.maxEntries)]
        simp only [List.nil_append, List.length_nil, Nat.zero_add, List.length_map]
        rw [hlen, Nat.add_sub_cancel_left]
  · rw [List.length_drop, List.length_map, hlen]
    omega
  · intro st' now nowStr source' level msg s h
    by_cases hs : source' = s
    · subst hs
      simp only [addLogEntry, alistGet?_alistSet_self, Option.getD_some]
      rw [length_dequeAppend]
      omega
    · simp only [addLogEntry]
      rw [alistGet?_alistSet_ne _ _ _ _ hs]
      exact h

/-- A concrete three-emit run against capacity 2 exercising
`C2_bounded_buffer_fifo`. -/
def c2State : LogMonitorState :=
  { maxEntries := 2, logSources := [], logBuffers := [], loggerAliases := [] }

/-- The three emit events of the concrete C2 run. -/
def c2Events : List EmitEvent :=
  [(0, "t0", "info", "m0"), (1, "t1", "warning", "m1"), (2, "t2", "error", "m2")]

theorem C2_bounded_buffer_fifo_witness :
    alistGet? "app" (emitSeq c2State "app" c2Events).logBuffers =
        some ((c2Events.map (entryOfEvent "app")).drop 1)
    ∧ ((c2Events.map (entryOfEvent "app")).drop 1).length = c2State.maxEntries :=
  let h := C2_bounded_buffer_fifo c2State "app" c2Events 1 rfl rfl (by decide)
  ⟨h.1, h.2.1⟩

/-! ### Alias resolution (`set_logger_alias` / `_derive_source_from_logger`) -/

/-- `LogMonitor.set_logger_alias(prefix, alias)`: plain dict assignment. -/
def setLoggerAlias (st : LogMonitorState) (pre aliasName : String) :
    LogMonitorState :=
  { st with loggerAliases := alistSet pre aliasName st.loggerAliases }

/-- `LogMonitor._derive_source_from_logger`: scan the alias table in
insertion order and return the alias of the first rule whose prefix the
logger name starts with; otherwise fall back to the first dot-delimited
segment, or `"app"` for the empty name. -/
def deriveSourceFromLogger (st : LogMonitorState) (loggerName : String) : String :=
  match st.loggerAliases.find? (fun r => strStartsWith loggerName r.1) with
  | some r => r.2
  | none =>
      if loggerName = "" then "app"
      else (strSplitOnChar '.' loggerName).headD "app"

/-- The alias table built in `LogMonitor.__init__`; `appLoggerName` is the
host application's logger name (aliased to `"flask"` when available). -/
def initLoggerAliases (appLoggerName : Option String) : List (String × String) :=
  let base := [("flask.app", "flask"), ("flask", "flask"),
    ("werkzeug", "werkzeug"), ("crawl4ai", "crawl4ai"), ("con5013", "CON5013")]
  match appLoggerName with
  | some nm => alistSet nm "flask" base
  | none => base

/-- Modelled from the claim's words, for comparison with the code's
`_derive_source_from_logger`: among the rules whose prefix matches,
return the alias of the rule with the longest prefix, ties broken in
favor of the most recently added rule. -/
def claimAliasResolve (rules : List (String × String)) (name : String) :
    Option String :=
  (rules.foldl
    (fun best r =>
      if strStartsWith name r.1 then
        match best with
        | some b => if b.1.length ≤ r.1.length then some r else some b
        | none => some r
      else best)
    none).map (fun r => r.2)

/-- A `LogMonitor` as initialized with the default alias table. -/
def c3State : LogMonitorState :=
  { maxEntries := 1000, logSources := [], logBuffers := [],
    loggerAliases := initLoggerAliases none }

/-- C3 counterexample: after adding the more specific rule
`con5013.x → special`, the code still resolves `con5013.xy` through the
earlier, shorter rule `con5013 → CON5013`, while the claim's
longest-prefix policy would pick `special`. -/
theorem C3_counterexample :
    deriveSourceFromLogger (setLoggerAlias c3State "con5013.x" "special")
        "con5013.xy" = "CON5013"
    ∧ claimAliasResolve (setLoggerAlias c3State "con5013.x" "special").loggerAliases
        "con5013.xy" = some "special"
    ∧ "CON5013" ≠ "special" := by
  decide

theorem alistSet_eq_append_of_not_mem (k : String) (v : V)
    (l : List (String × V)) (h : ∀ r ∈ l, r.1 ≠ k) :
    alistSet k v l = l ++ [(k, v)] := by
  induction l with
  | nil => rfl
  | cons p rest ih =>
      obtain ⟨k₀, v₀⟩ := p
      have hp : k₀ ≠ k := h (k₀, v₀) (by simp)
      simp only [alistSet, if_neg hp, List.cons_append, List.cons.injEq, true_and]
      exact ih fun r hr => h r (by simp [hr])

theorem find?_alistSet_of_found (q : String → Bool) (k : String) (v a₀ : V)
    (l : List (String × V))
    (hfound : l.find? (fun r => q r.1) = some (k, a₀)) :
    (alistSet k v l).find? (fun r => q r.1) = some (k, v) := by
  induction l with
  | nil => simp [List.find?] at hfound
  | cons p rest ih =>
      obtain ⟨k₀, v₀⟩ := p
      rw [List.find?_cons] at hfound
      cases hq : q k₀ with
      | true =>
          simp only [hq] at hfound
          injection hfound with hpair
          injection hpair with hk hv
          subst hk
          have hset : alistSet k₀ v ((k₀, v₀) :: rest) = (k₀, v) :: rest := by
            simp [alistSet]
          rw [hset, List.find?_cons]
          simp only [hq]
      | false =>
          simp only [hq] at hfound
          by_cases hk : k₀ = k
          · exfalso
            subst hk
            have hqk := List.find?_some hfound
            simp only at hqk
            rw [hq] at hqk
            exact Bool.false_ne_true hqk
          · have hset : alistSet k v ((k₀, v₀) :: rest) =
                (k₀, v₀) :: alistSet k v rest := by
              simp [alistSet, hk]
            rw [hset, List.find?_cons]
            simp only [hq]
            exact ih hfound

/-- C3 amended: alias resolution returns the alias of the **first**
matching rule in table-insertion order (not the longest prefix);
appending a rule under a fresh prefix never changes the resolution of a
name some existing rule already matches; and re-aliasing the prefix of
the first matching rule does change the resolution to the new alias
(dict assignment updates that rule in place). -/
theorem C3_first_match_resolution :
    (∀ (st : LogMonitorState) (name p a : String),
      st.loggerAliases.find? (fun r => strStartsWith name r.1) = some (p, a) →
      deriveSourceFromLogger st name = a)
    ∧ (∀ (st : LogMonitorState) (name p a : String),
      (∀ r ∈ st.loggerAliases, r.1 ≠ p) →
      (st.loggerAliases.find? (fun r => strStartsWith name r.1)).isSome →
      deriveSourceFromLogger (setLoggerAlias st p a) name =
        deriveSourceFromLogger st name)
    ∧ (∀ (st : LogMonitorState) (name p a₀ a : String),
      st.loggerAliases.find? (fun r => strStartsWith name r.1) = some (p, a₀) →
      deriveSourceFromLogger (setLoggerAlias st p a) name = a) := by
  refine ⟨?_, ?_, ?_⟩
  · intro st name p a hfind
    simp only [deriveSourceFromLogger, hfind]
  · intro st name p a hfresh hsome
    obtain ⟨r, hr⟩ := Option.isSome_iff_exists.mp hsome
    simp only [deriveSourceFromLogger, setLoggerAlias,
      alistSet_eq_append_of_not_mem p a st.loggerAliases hfresh,
      List.find?_append, hr, Option.or_some]
  · intro st name p a₀ a hfind
    simp only [deriveSourceFromLogger, setLoggerAlias,
      find?_alistSet_of_found _ p a a₀ _ hfind]

theorem C3_first_match_resolution_witness :
    deriveSourceFromLogger c3State "flask.app.x" = "flask"
    ∧ deriveSourceFromLogger (setLoggerAlias c3State "custom" "bar")
        "flask.app.x" = deriveSourceFromLogger c3State "flask.app.x"
    ∧ deriveSourceFromLogger (setLoggerAlias c3State "flask.app" "mine")
        "flask.app.x" = "mine" :=
  ⟨C3_first_match_resolution.1 c3State "flask.app.x" "flask.app" "flask" (by decide),
   C3_first_match_resolution.2.1 c3State "flask.app.x" "custom" "bar"
     (by decide) (by decide),
   C3_first_match_resolution.2.2 c3State "flask.app.x" "flask.app" "flask" "mine"
     (by decide)⟩

/-! ### File tail reader (`LogMonitor._read_file_content`) -/

/-- The observable state of a tailed file at refresh time: `none` when
the file does not exist, otherwise its modification time and content. -/
abbrev FileState := Option (Nat × String)

/-- `LogMonitor._extract_log_level`. -/
def extractLogLevel (line : String) : String :=
  let lineUpper := strToUpper line
  if strContainsSub lineUpper "CRITICAL" then "CRITICAL"
  else if strContainsSub lineUpper "ERROR" then "ERROR"
  else if strContainsSub lineUpper "WARNING" then "WARNING"
  else if strContainsSub lineUpper "INFO" then "INFO"
  else if strContainsSub lineUpper "DEBUG" then "DEBUG"
  else "INFO"

/-- `LogMonitor._process_log_line`: skip empty lines, otherwise append a
parsed entry to the source's buffer. -/
def processLogLine (st : LogMonitorState) (now : Nat) (source line : String) :
    LogMonitorState :=
  if line = "" then st
  else
    let entry : LogEntry :=
      { timestamp := now, source := source, level := extractLogLevel line,
        message := line, raw := line }
    let buf := (alistGet? source st.logBuffers).getD []
    { st with logBuffers :=
        alistSet source (dequeAppend st.maxEntries buf entry) st.logBuffers }

/-- `LogMonitor._read_file_content(source_name)` against a file in state
`file`. Mirrors the code: missing source or missing file returns
unchanged; an unchanged modification time returns unchanged; otherwise
it seeks to `last_position`, reads to end of file, stores the position
after the read (`f.tell()`, i.e. `max last_position (len content)`), and
feeds each stripped non-empty new line to `_process_log_line`. -/
def readFileContent (st : LogMonitorState) (now : Nat) (sourceName : String)
    (file : FileState) : LogMonitorState :=
  match alistGet? sourceName st.logSources with
  | none => st
  | some src =>
      match file with
      | none => st
      | some (mtime, content) =>
          if mtime ≤ src.lastModified then st
          else
            let newData := strDrop content src.lastPosition
            let newPos := max src.lastPosition (strLen content)
            let src₁ := { src with lastPosition := newPos, lastModified := mtime }
            let st₁ := { st with logSources := alistSet sourceName src₁ st.logSources }
            ((strSplitOnChar '\n' newData).map strTrim).foldl
              (fun s l => processLogLine s now sourceName l) st₁

/-- The stored tail state of the C9 run: 5 characters already consumed. -/
def c9Source : FileSource :=
  { path := "app.log", lastPosition := 5, lastModified := 1 }

/-- A monitor that has already read 5 characters of the tailed file. -/
def c9State : LogMonitorState :=
  { maxEntries := 1000, logSources := [("app", c9Source)],
    logBuffers := [("app", [])], loggerAliases := [] }

/-- The state the code actually produces on the shrunken file: the
offset is still 5, only the stored modification time moved to 2. -/
def c9StateAfter : LogMonitorState :=
  { maxEntries := 1000,
    logSources := [("app", { path := "app.log", lastPosition := 5, lastModified := 2 })],
    logBuffers := [("app", [])], loggerAliases := [] }

/-- C9: the code keeps the stored offset when the tailed file has shrunk
below it (refresh ingests nothing and leaves `last_position` at 5, so
the file's new content is skipped), and returns with the state fully
unchanged when the file no longer exists — it never resets the offset
to 0 as the claim requires. -/
theorem C9_shrunk_file_keeps_offset :
    readFileContent c9State 7 "app" (some (2, "abc")) = c9StateAfter
    ∧ readFileContent c9State 7 "app" none = c9State := by
  decide

/-! ### Terminal engine (`con5013/core/terminal_engine.py`) -/

/-- The result dictionary `TerminalEngine.execute` returns. Every field
is optional because not every code path sets every key; `rtype` embeds
the Python key `type`. -/
structure ResDict where
  output : Option String := none
  rtype : Option String := none
  command : Option String := none
  timestamp : Option Nat := none
deriving DecidableEq

/-- The outcome of one handler invocation: return a string, return a
dictionary (with or without `output`/`type` keys), return some other
value (which `execute` stringifies), or raise an exception carrying a
message. -/
inductive HandlerRet where
  | hstr (s : String)
  | hdict (output : Option String) (rtype : Option String)
  | hother (s : String)
  | hraise (msg : String)
deriving DecidableEq

/-- One entry of `self.commands`: handler, description, and the
`builtin` marker (absent key modelled as `false`). -/
structure CmdInfo where
  handler : List String → HandlerRet
  description : Option String
  builtin : Bool := false

/-- One entry of `self.history`. -/
structure HistoryRec where
  command : String
  timestamp : Nat
  context : List (String × String)
deriving DecidableEq

/-- The engine state `execute` reads and writes. -/
structure EngineState where
  commands : List (String × CmdInfo)
  history : List HistoryRec
  historyMax : Nat

/-- `TerminalEngine.add_command(name, handler, description)`. The stored
description is `description or getattr(handler, '__doc__', ...)`;
`handlerDoc` models the handler's `__doc__` attribute. The new entry
carries no `builtin` key. -/
def addCommand (st : EngineState) (name : String)
    (handler : List String → HandlerRet) (description : String)
    (handlerDoc : Option String) : EngineState :=
  let desc := if description ≠ "" then some description else handlerDoc
  let info : CmdInfo := { handler := handler, description := desc, builtin := false }
  { st with commands := alistSet name info st.commands }

/-- Helper to build a `ResDict` positionally. -/
def mkRes (o t c : Option String) (ts : Option Nat) : ResDict :=
  { output := o, rtype := t, command := c, timestamp := ts }

/-- The message of the unknown-command `error` Result. -/
def unknownCmdMsg (cmdName : String) : String :=
  "Command \x27" ++ cmdName ++ "\x27 not found. Type \x27help\x27 for available commands."

/-- `TerminalEngine.execute(command, context)`. `tok` abstracts
`shlex.split` (`Except.error e` models `ValueError(e)`); `now` models
the `time.time()` reads. The embedding is a total function: the
dispatcher itself never raises. -/
def execute (tok : String → Except String (List String)) (st : EngineState)
    (now : Nat) (command : String) (context : List (String × String)) :
    ResDict × EngineState :=
  if strTrim command = "" then
    (mkRes (some "") (some "empty") none none, st)
  else
    let rec₀ : HistoryRec := { command := command, timestamp := now, context := context }
    let st₁ := { st with history := dequeAppend st.historyMax st.history rec₀ }
    match tok command with
    | .error e =>
        (mkRes (some ("Command parsing error: " ++ e)) (some "error") none none, st₁)
    | .ok [] => (mkRes (some "") (some "empty") none none, st₁)
    | .ok (cmdName :: args) =>
        match alistGet? cmdName st.commands with
        | none =>
            (mkRes (some (unknownCmdMsg cmdName)) (some "error") none none, st₁)
        | some info =>
            match info.handler args with
            | .hraise msg =>
                (mkRes (some ("Command execution error: " ++ msg)) (some "error")
                  (some command) (some now), st₁)
            | .hstr s =>
                (mkRes (some s) (some "text") (some command) (some now), st₁)
            | .hother s =>
                (mkRes (some s) (some "text") (some command) (some now), st₁)
            | .hdict o t =>
                (mkRes o t (some command) (some now), st₁)

/-- A simple whitespace tokenizer, used to instantiate `tok` on
quote-free concrete inputs. -/
def tokWS (s : String) : Except String (List String) :=
  Except.ok ((strSplitOnChar ' ' s).filter (fun t => t ≠ ""))

/-- The registry entry of the always-raising command `boom`. -/
def boomInfo : CmdInfo :=
  { handler := fun _ => .hraise "kaput", description := none, builtin := false }

/-- A registry with one command, `boom`, whose handler always raises. -/
def c1State : EngineState :=
  { commands := [("boom", boomInfo)], history := [], historyMax := 100 }

/-- C1: a handler that raises is caught at the dispatch boundary; the
call returns a Result of kind `error` whose output is the fixed prefix
`"Command execution error: "` followed by the raised message (hence
contains it), with command line and timestamp attached. `execute` is a
total function of its inputs, so the dispatcher itself never raises. -/
theorem C1_handler_exception_contained
    (tok : String → Except String (List String)) (st : EngineState)
    (now : Nat) (command : String) (context : List (String × String))
    (cmdName : String) (args : List String) (info : CmdInfo) (msg : String)
    (hblank : strTrim command ≠ "")
    (htok : tok command = .ok (cmdName :: args))
    (hlookup : alistGet? cmdName st.commands = some info)
    (hraise : info.handler args = .hraise msg) :
    (execute tok st now command context).1 =
      mkRes (some ("Command execution error: " ++ msg)) (some "error")
        (some command) (some now) := by
  simp only [execute, if_neg hblank, htok, hlookup, hraise]

theorem C1_handler_exception_contained_witness :
    (execute tokWS c1State 0 "boom" []).1 =
      mkRes (some ("Command execution error: " ++ "kaput")) (some "error")
        (some "boom") (some 0) :=
  C1_handler_exception_contained tokWS c1State 0 "boom" [] "boom" []
    boomInfo "kaput" (by decide) rfl rfl rfl

/-- C8: a non-blank command line whose first token is not a registered
command name yields the unknown-command `error` Result naming the
command, and the history record was already appended (it is appended
before the command is validated). No handler can be invoked — none is
registered under the name, and the theorem holds for every registry
lacking it — and the registry itself is untouched. -/
theorem C8_unknown_command_appends_history
    (tok : String → Except String (List String)) (st : EngineState)
    (now : Nat) (command : String) (context : List (String × String))
    (cmdName : String) (args : List String)
    (hblank : strTrim command ≠ "")
    (htok : tok command = .ok (cmdName :: args))
    (hlookup : alistGet? cmdName st.commands = none) :
    (execute tok st now command context).1 =
      mkRes (some (unknownCmdMsg cmdName)) (some "error") none none
    ∧ (execute tok st now command context).2.history =
        dequeAppend st.historyMax st.history
          { command := command, timestamp := now, context := context }
    ∧ (execute tok st now command context).2.commands = st.commands := by
  refine ⟨?_, ?_, ?_⟩ <;> simp only [execute, if_neg hblank, htok, hlookup]

theorem C8_unknown_command_appends_history_witness :
    (execute tokWS c1State 0 "nope" []).1 =
      mkRes (some (unknownCmdMsg "nope")) (some "error") none none
    ∧ (execute tokWS c1State 0 "nope" []).2.history =
        dequeAppend c1State.historyMax c1State.history
          { command := "nope", timestamp := 0, context := [] }
    ∧ (execute tokWS c1State 0 "nope" []).2.commands = c1State.commands :=
  C8_unknown_command_appends_history tokWS c1State 0 "nope" [] "nope" []
    (by decide) rfl rfl

/-- C4 counterexample: on blank input `execute` returns a Result that
holds only `output` and `kind`; the submitted command line and the
timestamp are absent, refuting the claim that every path returns all
four fields. -/
theorem C4_counterexample :
    (execute tokWS c1State 0 "" []).1.command = none
    ∧ (execute tokWS c1State 0 "" []).1.timestamp = none
    ∧ (execute tokWS c1State 0 "" []).1.rtype = some "empty" := by
  decide

/-- C4 amended: every `execute` path returns a Result, but the submitted
command line and the timestamp are attached exactly on the paths that
reach a registered handler (success or failure); the blank-input,
tokenization-failure, empty-token and unknown-command paths return a
Result carrying only `output` and `kind`. -/
theorem C4_metadata_on_handler_paths_only
    (tok : String → Except String (List String)) (st : EngineState)
    (now : Nat) (command : String) (context : List (String × String)) :
    ((∃ cmdName args info, strTrim command ≠ ""
        ∧ tok command = Except.ok (cmdName :: args)
        ∧ alistGet? cmdName st.commands = some info)
      ↔ ((execute tok st now command context).1.command = some command
        ∧ (execute tok st now command context).1.timestamp = some now))
    ∧ ((∀ cmdName args (info : CmdInfo), ¬(strTrim command ≠ ""
        ∧ tok command = Except.ok (cmdName :: args)
        ∧ alistGet? cmdName st.commands = some info)) →
      ((execute tok st now command context).1.command = none
        ∧ (execute tok st now command context).1.timestamp = none
        ∧ (execute tok st now command context).1.output.isSome
        ∧ (execute tok st now command context).1.rtype.isSome)) := by
  by_cases hb : strTrim command = ""
  · have hres : (execute tok st now command context).1 =
        mkRes (some "") (some "empty") none none := by
      simp only [execute, if_pos hb]
    refine ⟨⟨?_, ?_⟩, ?_⟩
    · rintro ⟨_, _, _, hb', _, _⟩
      exact absurd hb hb'
    · rw [hres]
      rintro ⟨hc, _⟩
      exact Option.noConfusion hc
    · intro _
      rw [hres]
      exact ⟨rfl, rfl, rfl, rfl⟩
  · cases htok : tok command with
    | error e =>
        have hres : (execute tok st now command context).1 =
            mkRes (some ("Command parsing error: " ++ e)) (some "error") none none := by
          simp only [execute, if_neg hb, htok]
        refine ⟨⟨?_, ?_⟩, ?_⟩
        · rintro ⟨_, _, _, _, htok', _⟩
          exact Except.noConfusion htok'
        · rw [hres]
          rintro ⟨hc, _⟩
          exact Option.noConfusion hc
        · intro _
          rw [hres]
          exact ⟨rfl, rfl, rfl, rfl⟩
    | ok parts =>
        cases parts with
        | nil =>
            have hres : (execute tok st now command context).1 =
                mkRes (some "") (some "empty") none none := by
              simp only [execute, if_neg hb, htok]
            refine ⟨⟨?_, ?_⟩, ?_⟩
            · rintro ⟨_, _, _, _, htok', _⟩
              injection htok' with hlist
              exact List.noConfusion hlist
            · rw [hres]
              rintro ⟨hc, _⟩
              exact Option.noConfusion hc
            · intro _
              rw [hres]
              exact ⟨rfl, rfl, rfl, rfl⟩
        | cons n as =>
            cases hlook : alistGet? n st.commands with
            | none =>
                have hres : (execute tok st now command context).1 =
                    mkRes (some (unknownCmdMsg n)) (some "error") none none := by
                  simp only [execute, if_neg hb, htok, hlook]
                refine ⟨⟨?_, ?_⟩, ?_⟩
                · rintro ⟨cmdName, args, info, _, htok', hlook'⟩
                  injection htok' with hlist
                  injection hlist with h1 h2
                  subst h1
                  rw [hlook] at hlook'
                  exact Option.noConfusion hlook'
                · rw [hres]
                  rintro ⟨hc, _⟩
                  exact Option.noConfusion hc
                · intro _
                  rw [hres]
                  exact ⟨rfl, rfl, rfl, rfl⟩
            | some info =>
                refine ⟨⟨?_, ?_⟩, ?_⟩
                · intro _
                  cases hret : info.handler as <;>
                    simp [execute, hb, htok, hlook, hret, mkRes]
                · intro _
                  exact ⟨n, as, info, hb, rfl, hlook⟩
                · intro hno
                  exact absurd ⟨hb, rfl, hlook⟩ (hno n as info)

theorem C4_metadata_on_handler_paths_only_witness :
    ((execute tokWS c1State 0 "boom" []).1.command = some "boom"
      ∧ (execute tokWS c1State 0 "boom" []).1.timestamp = some 0)
    ∧ ((execute tokWS c1State 0 "nope" []).1.command = none
      ∧ (execute tokWS c1State 0 "nope" []).1.timestamp = none
      ∧ (execute tokWS c1State 0 "nope" []).1.output.isSome
      ∧ (execute tokWS c1State 0 "nope" []).1.rtype.isSome) := by
  constructor
  · exact (C4_metadata_on_handler_paths_only tokWS c1State 0 "boom" []).1.mp
      ⟨"boom", [], boomInfo, by decide, rfl, rfl⟩
  · refine (C4_metadata_on_handler_paths_only tokWS c1State 0 "nope" []).2 ?_
    rintro cmdName args info ⟨_, htok', hlook'⟩
    have h1 : tokWS "nope" = Except.ok ["nope"] := rfl
    rw [h1] at htok'
    injection htok' with hlist
    injection hlist with he1 he2
    subst he1
    have h2 : alistGet? "nope" c1State.commands = none := rfl
    rw [h2] at hlook'
    exact Option.noConfusion hlook'

/-! ### Sandboxed evaluator (`py_command`)

The `py` command evaluates Python in a curated namespace. The host
language's `eval`/`exec` are embedded here for the fragment the claims
exercise: integer literals, identifiers, `+`, `*`, assignment, and
`;`-separated statement sequences on a single line. Outside this
fragment (newlines, other operators, other value types) the embedded
lexer reports a syntax error. The fragment has no `print`, so the
captured standard output is always empty, and no expression of the
fragment evaluates to `None`. -/

/-- A Python value of the modelled fragment. `vOpaque` stands for the
non-fragment objects seeded into the namespace (`__builtins__`, `app`,
`current_app`). -/
inductive PyVal where
  | vInt (n : Int)
  | vNone
  | vOpaque (tag : String)
deriving DecidableEq

/-- The persistent execution context / evaluation namespace. -/
abbrev NS := List (String × PyVal)

/-- Python `str(v)` on fragment values. -/
def pyValStr : PyVal → String
  | .vInt n => toString n
  | .vNone => "None"
  | .vOpaque tag => "<" ++ tag ++ ">"

/-- Tokens of the fragment. -/
inductive PyTok where
  | pInt (n : Nat)
  | pId (s : String)
  | pPlus
  | pStar
  | pEq
  | pSemi
deriving DecidableEq

/-- Lexer state: tokens collected so far (reversed) and the pending
number or identifier. -/
structure LexState where
  toks : List PyTok
  cur : Option (Sum Nat String)

/-- Finish the pending number or identifier token. -/
def flushCur : LexState → LexState
  | ⟨toks, none⟩ => ⟨toks, none⟩
  | ⟨toks, some (.inl n)⟩ => ⟨.pInt n :: toks, none⟩
  | ⟨toks, some (.inr s)⟩ => ⟨.pId s :: toks, none⟩

/-- Push an operator token (after flushing the pending token). -/
def pushOp (st : LexState) (t : PyTok) : LexState :=
  let st' := flushCur st
  ⟨t :: st'.toks, st'.cur⟩

/-- One lexer step. -/
def lexStep (acc : Except String LexState) (c : Char) : Except String LexState :=
  match acc with
  | .error e => .error e
  | .ok st =>
      if c.isDigit then
        match st.cur with
        | some (.inl n) => .ok ⟨st.toks, some (.inl (n * 10 + (c.toNat - 48)))⟩
        | some (.inr s) => .ok ⟨st.toks, some (.inr (s.push c))⟩
        | none => .ok ⟨st.toks, some (.inl (c.toNat - 48))⟩
      else if c.isAlpha || c = '_' then
        match st.cur with
        | some (.inl _) => .error "invalid decimal literal"
        | some (.inr s) => .ok ⟨st.toks, some (.inr (s.push c))⟩
        | none => .ok ⟨st.toks, some (.inr (String.mk [c]))⟩
      else if c = ' ' then .ok (flushCur st)
      else if c = '+' then .ok (pushOp st .pPlus)
      else if c = '*' then .ok (pushOp st .pStar)
      else if c = '=' then .ok (pushOp st .pEq)
      else if c = ';' then .ok (pushOp st .pSemi)
      else .error "invalid syntax"

/-- Tokenize a fragment source string. -/
def pyTokenize (s : String) : Except String (List PyTok) :=
  match s.data.foldl lexStep (.ok ⟨[], none⟩) with
  | .error e => .error e
  | .ok st => .ok (flushCur st).toks.reverse

/-- Expressions of the fragment. -/
inductive PyExpr where
  | eInt (n : Nat)
  | eName (x : String)
  | eAdd (a b : PyExpr)
  | eMul (a b : PyExpr)
deriving DecidableEq

/-- Simple statements of the fragment. -/
inductive PyStmt where
  | sAssign (x : String) (e : PyExpr)
  | sExpr (e : PyExpr)
deriving DecidableEq

/-- Parse an atom (integer literal or identifier). -/
def parseAtom : List PyTok → Except String (PyExpr × List PyTok)
  | .pInt n :: rest => .ok (.eInt n, rest)
  | .pId x :: rest => .ok (.eName x, rest)
  | _ => .error "invalid syntax"

/-- Parse the `* atom` continuations of a product. -/
def parseMulTail (fuel : Nat) (acc : PyExpr) (ts : List PyTok) :
    Except String (PyExpr × List PyTok) :=
  match fuel with
  | 0 => .error "invalid syntax"
  | fuel + 1 =>
      match ts with
      | .pStar :: rest =>
          match parseAtom rest with
          | .error e => .error e
          | .ok (rhs, rest') => parseMulTail fuel (.eMul acc rhs) rest'
      | _ => .ok (acc, ts)

/-- Parse a product. -/
def parseMulFrom (ts : List PyTok) : Except String (PyExpr × List PyTok) :=
  match parseAtom ts with
  | .error e => .error e
  | .ok (a, r) => parseMulTail (r.length + 1) a r

/-- Parse the `+ product` continuations of a sum. -/
def parseAddTail (fuel : Nat) (acc : PyExpr) (ts : List PyTok) :
    Except String (PyExpr × List PyTok) :=
  match fuel with
  | 0 => .error "invalid syntax"
  | fuel + 1 =>
      match ts with
      | .pPlus :: rest =>
          match parseMulFrom rest with
          | .error e => .error e
          | .ok (b, r) => parseAddTail fuel (.eAdd acc b) r
      | _ => .ok (acc, ts)

/-- Parse a sum (the fragment's full expression grammar, `+` binding
looser than `*`). -/
def parseAddFrom (ts : List PyTok) : Except String (PyExpr × List PyTok) :=
  match parseMulFrom ts with
  | .error e => .error e
  | .ok (a, r) => parseAddTail (r.length + 1) a r

/-- Parse a complete expression (no tokens may remain), as `eval` does. -/
def parseExprAll (ts : List PyTok) : Except String PyExpr :=
  match parseAddFrom ts with
  | .error e => .error e
  | .ok (e, []) => .ok e
  | .ok (_, _ :: _) => .error "invalid syntax"

/-- Split a token list on `;`. -/
def splitStmts : List PyTok → List (List PyTok)
  | [] => [[]]
  | .pSemi :: rest => [] :: splitStmts rest
  | t :: rest =>
      match splitStmts rest with
      | seg :: segs => (t :: seg) :: segs
      | [] => [[t]]

/-- Parse one simple statement: `name = expr` or a bare expression. -/
def parseStmt (ts : List PyTok) : Except String PyStmt :=
  match ts with
  | .pId x :: .pEq :: rest =>
      match parseExprAll rest with
      | .error e => .error e
      | .ok e => .ok (.sAssign x e)
  | _ =>
      match parseExprAll ts with
      | .error e => .error e
      | .ok e => .ok (.sExpr e)

/-- Parse a `;`-separated statement sequence, as `exec` does (one
trailing `;` is allowed). -/
def parseStmts (ts : List PyTok) : Except String (List PyStmt) :=
  let segs := splitStmts ts
  let segs₁ := match segs.getLast? with
    | some [] => segs.dropLast
    | _ => segs
  segs₁.mapM parseStmt

/-- Python `a + b` on fragment values. -/
def pyAdd : PyVal → PyVal → Except String PyVal
  | .vInt a, .vInt b => .ok (.vInt (a + b))
  | _, _ => .error "unsupported operand type(s) for +"

/-- Python `a * b` on fragment values. -/
def pyMul : PyVal → PyVal → Except String PyVal
  | .vInt a, .vInt b => .ok (.vInt (a * b))
  | _, _ => .error "unsupported operand type(s) for *"

/-- Evaluate an expression in a namespace; an unbound name raises
`NameError`. -/
def evalExpr (ns : NS) : PyExpr → Except String PyVal
  | .eInt n => .ok (.vInt n)
  | .eName x =>
      match alistGet? x ns with
      | some v => .ok v
      | none => .error ("name \x27" ++ x ++ "\x27 is not defined")
  | .eAdd a b =>
      match evalExpr ns a with
      | .error e => .error e
      | .ok va =>
          match evalExpr ns b with
          | .error e => .error e
          | .ok vb => pyAdd va vb
  | .eMul a b =>
      match evalExpr ns a with
      | .error e => .error e
      | .ok va =>
          match evalExpr ns b with
          | .error e => .error e
          | .ok vb => pyMul va vb

/-- Execute one statement, mutating the namespace. -/
def execStmt (ns : NS) : PyStmt → Except String NS
  | .sAssign x e =>
      match evalExpr ns e with
      | .error m => .error m
      | .ok v => .ok (alistSet x v ns)
  | .sExpr e =>
      match evalExpr ns e with
      | .error m => .error m
      | .ok _ => .ok ns

/-- Execute a statement sequence, as `exec` does. -/
def execStmts (ns : NS) : List PyStmt → Except String NS
  | [] => .ok ns
  | s :: rest =>
      match execStmt ns s with
      | .error m => .error m
      | .ok ns' => execStmts ns' rest

/-- Build the evaluation namespace:
`ns = {'__builtins__': ...}; ns.update(ctx); ns['app'] = ...;
ns['current_app'] = ...`. -/
def seedNS (ctx : NS) : NS :=
  alistSet "current_app" (.vOpaque "current_app")
    (alistSet "app" (.vOpaque "app")
      (ctx.foldl (fun ns kv => alistSet kv.1 kv.2 ns)
        [("__builtins__", .vOpaque "builtins")]))

/-- Persist the namespace back into the execution context:
`{k: v for k, v in ns.items() if k not in {'__builtins__', 'app',
'current_app'}}`. -/
def persistCtx (ns : NS) : NS :=
  ns.filter (fun kv =>
    !(kv.1 == "__builtins__" || kv.1 == "app" || kv.1 == "current_app"))

/-- Python `c in s` for a single character. -/
def strContainsChar (s : String) (c : Char) : Bool :=
  s.data.contains c

/-- Python `s.endswith(pat)`. -/
def strEndsWith (s pat : String) : Bool :=
  pat.data.isSuffixOf s.data

/-- The `exec` branch of `py_command`: parse and run the statement
sequence; on success persist the namespace and surface `result` (when
defined and not `None`) after the captured output (empty in the
fragment), or report `"Code executed."`; on any failure return an
`error` Result and leave the context untouched. -/
def execPath (ns : NS) (toks : List PyTok) (ctx : NS) : ResDict × NS :=
  match parseStmts toks with
  | .error e => (mkRes (some ("Eval error: " ++ e)) (some "error") none none, ctx)
  | .ok stmts =>
      match execStmts ns stmts with
      | .error m => (mkRes (some ("Eval error: " ++ m)) (some "error") none none, ctx)
      | .ok ns₁ =>
          let ctx₁ := persistCtx ns₁
          let outText := match alistGet? "result" ns₁ with
            | some v => if v = .vNone then "" else pyValStr v
            | none => ""
          let out := if outText = "" then "Code executed." else outText
          (mkRes (some out) (some "text") none none, ctx₁)

/-- `py_command`'s evaluation core on the (already-stripped) source
string `expr`: the opt-in gate, the empty-input usage warning, the
eval-first/exec-fallback mode choice, result normalization, context
persistence, and the catch-all converting any evaluation failure into
an `error` Result. Returns the handler's result dictionary and the new
persistent context. -/
def evaluate (allowPy : Bool) (ctx : NS) (expr : String) : ResDict × NS :=
  if !allowPy then
    (mkRes (some "Python eval disabled. Enable CON5013_TERMINAL_ALLOW_PY to use.")
      (some "warning") none none, ctx)
  else if expr = "" then
    (mkRes (some "Usage: py <expression>") (some "warning") none none, ctx)
  else
    let ns := seedNS ctx
    let useExec := strContainsChar expr '\n' || strContainsChar expr ';'
    match pyTokenize expr with
    | .error e => (mkRes (some ("Eval error: " ++ e)) (some "error") none none, ctx)
    | .ok toks =>
        if !useExec then
          match parseExprAll toks with
          | .ok e =>
              match evalExpr ns e with
              | .error m =>
                  (mkRes (some ("Eval error: " ++ m)) (some "error") none none, ctx)
              | .ok v =>
                  if v = .vNone then
                    (mkRes (some "None") (some "text") none none, ctx)
                  else
                    (mkRes (some (pyValStr v)) (some "text") none none, persistCtx ns)
          | .error _ => execPath ns toks ctx
        else execPath ns toks ctx

/-- C5: with the sandbox flag enabled, `evaluate("1+2")` returns output
`"3"`; `evaluate("x=2; y=5; result=x*y")` persists `x` and `y` into the
execution context and returns output ending in `"10"`; a subsequent
`evaluate("x")` on the resulting context returns output `"2"` —
variables assigned in one invocation are visible in later ones. -/
theorem C5_sandbox_session :
    (evaluate true [] "1+2").1.output = some "3"
    ∧ (evaluate true [] "1+2").1.rtype = some "text"
    ∧ strEndsWith
        (((evaluate true (evaluate true [] "1+2").2
          "x=2; y=5; result=x*y").1.output).getD "") "10" = true
    ∧ alistGet? "x"
        (evaluate true (evaluate true [] "1+2").2 "x=2; y=5; result=x*y").2
        = some (PyVal.vInt 2)
    ∧ alistGet? "y"
        (evaluate true (evaluate true [] "1+2").2 "x=2; y=5; result=x*y").2
        = some (PyVal.vInt 5)
    ∧ (evaluate true
        (evaluate true (evaluate true [] "1+2").2 "x=2; y=5; result=x*y").2
        "x").1.output = some "2" := by
  decide

/-- C6: with the sandbox flag disabled, every call returns the fixed
`warning` Result (not an error) explaining how to enable the feature,
without looking at the supplied code and with the execution context
returned unchanged. -/
theorem C6_disabled_returns_warning (ctx : NS) (expr : String) :
    evaluate false ctx expr =
      (mkRes (some "Python eval disabled. Enable CON5013_TERMINAL_ALLOW_PY to use.")
        (some "warning") none none, ctx) := rfl

theorem execPath_error_id (ns : NS) (toks : List PyTok) (ctx : NS)
    (d : ResDict) (ctx' : NS)
    (h : execPath ns toks ctx = (d, ctx')) (herr : d.rtype = some "error") :
    ctx' = ctx ∧ ∃ m, d.output = some ("Eval error: " ++ m) := by
  unfold execPath at h
  cases hps : parseStmts toks with
  | error e =>
      simp only [hps] at h
      injection h with h1 h2
      subst h1
      exact ⟨h2.symm, e, rfl⟩
  | ok stmts =>
      simp only [hps] at h
      cases hex : execStmts ns stmts with
      | error m =>
          simp only [hex] at h
          injection h with h1 h2
          subst h1
          exact ⟨h2.symm, m, rfl⟩
      | ok ns₁ =>
          simp only [hex] at h
          injection h with h1 h2
          subst h1
          simp [mkRes] at herr

/-- C7: with the sandbox enabled, whenever evaluation fails (the result
has kind `error` — tokenization, parse, or runtime failure), the
persistent execution context is returned unchanged and the output
carries the failure's message behind the fixed `"Eval error: "`
prefix. -/
theorem C7_sandbox_error_result (ctx : NS) (expr : String) (d : ResDict)
    (ctx' : NS)
    (heval : evaluate true ctx expr = (d, ctx'))
    (herr : d.rtype = some "error") :
    ctx' = ctx ∧ ∃ m, d.output = some ("Eval error: " ++ m) := by
  simp only [evaluate, Bool.not_true, Bool.false_eq_true, if_false] at heval
  by_cases hemp : expr = ""
  · rw [if_pos hemp] at heval
    injection heval with h1 h2
    subst h1
    simp [mkRes] at herr
  · rw [if_neg hemp] at heval
    cases htk : pyTokenize expr with
    | error e =>
        simp only [htk] at heval
        injection heval with h1 h2
        subst h1
        exact ⟨h2.symm, e, rfl⟩
    | ok toks =>
        simp only [htk] at heval
        cases hux : strContainsChar expr '\n' || strContainsChar expr ';' with
        | true =>
            rw [hux] at heval
            simp only [Bool.not_true, Bool.false_eq_true, if_false] at heval
            exact execPath_error_id _ _ _ _ _ heval herr
        | false =>
            rw [hux] at heval
            simp only [Bool.not_false, if_true] at heval
            cases hpe : parseExprAll toks with
            | error e =>
                simp only [hpe] at heval
                exact execPath_error_id _ _ _ _ _ heval herr
            | ok e =>
                simp only [hpe] at heval
                cases hev : evalExpr (seedNS ctx) e with
                | error m =>
                    simp only [hev] at heval
                    injection heval with h1 h2
                    subst h1
                    exact ⟨h2.symm, m, rfl⟩
                | ok v =>
                    simp only [hev] at heval
                    by_cases hv : v = PyVal.vNone
                    · rw [if_pos hv] at heval
                      injection heval with h1 h2
                      subst h1
                      simp [mkRes] at herr
                    · rw [if_neg hv] at heval
                      injection heval with h1 h2
                      subst h1
                      simp [mkRes] at herr

theorem C7_sandbox_error_result_witness :
    (evaluate true [] "zz").2 = ([] : NS)
    ∧ ∃ m, (evaluate true [] "zz").1.output = some ("Eval error: " ++ m) :=
  C7_sandbox_error_result [] "zz" (evaluate true [] "zz").1
    (evaluate true [] "zz").2 rfl rfl

/-! ### Help grouping (`TerminalEngine._help_handler` / `add_command`) -/

/-- Python `f"{s:<12}"`: left-justify to width 12 (no truncation). -/
def ljust12 (s : String) : String :=
  s ++ String.mk (List.replicate (12 - strLen s) ' ')

/-- Python string `<=` (lexicographic on code points). -/
def charsLe : List Char → List Char → Bool
  | [], _ => true
  | _ :: _, [] => false
  | a :: as, b :: bs =>
      if a.val < b.val then true
      else if b.val < a.val then false
      else charsLe as bs

/-- Insert into a list sorted by name. The command names are unique dict
keys, so Python's `sorted` over `(name, description)` pairs never
compares two descriptions; sorting by name alone is equivalent. -/
def insertByName (x : String × Option String) :
    List (String × Option String) → List (String × Option String)
  | [] => [x]
  | y :: ys => if charsLe x.1.data y.1.data then x :: y :: ys else y :: insertByName x ys

/-- Python `sorted` over `(name, description)` pairs. -/
def sortedByName (l : List (String × Option String)) :
    List (String × Option String) :=
  l.foldr insertByName []

/-- `str` of a stored description (`None` renders as `"None"` in the
f-string). -/
def descStr : Option String → String
  | some s => s
  | none => "None"

/-- One line of the Custom section: `f"  {name:<12} {desc}"`. -/
def customLine (p : String × Option String) : String :=
  "  " ++ ljust12 p.1 ++ " " ++ descStr p.2

/-- The static lines of `_help_handler` from `"Core:"` to the end. -/
def coreLines : List String :=
  ["Core:",
   "  " ++ ljust12 "help" ++ " Show available commands",
   "  " ++ ljust12 "clear" ++ " Clear terminal screen",
   "  " ++ ljust12 "status" ++ " Show application status",
   "  " ++ ljust12 "routes" ++ " List all application routes",
   "  " ++ ljust12 "config" ++ " Show safe application configuration",
   "  " ++ ljust12 "logs [N]" ++ " Show recent logs (default 10)",
   "  " ++ ljust12 "history [N]" ++ " Show recent terminal commands",
   "",
   "Requests:",
   "  " ++ ljust12 "http" ++ " HTTP test: http [--full|-f] GET /path [JSON]",
   "  " ++ ljust12 "httpfull" ++ " HTTP test (full body alias)",
   "  Examples:",
   "    http GET /",
   "    http --full GET /con5013/api/info",
   "    http POST /api/users \x7b\"name\":\"neo\"\x7d",
   "",
   "Python:",
   "  " ++ ljust12 "py" ++ " Evaluate Python in app context (enable CON5013_TERMINAL_ALLOW_PY)",
   "  Examples:",
   "    py 1+2",
   "    py for i in range(3): print(i)",
   "    py x=2; y=5; result=x*y",
   "",
   "Tips:",
   "  • Enter: run    • Shift+Enter: newline"]

/-- `TerminalEngine._help_handler` output lines: header, then a Custom
section listing the commands whose entries carry no `builtin` marker
(sorted), then the static Core/Requests/Python/Tips text; when the `py`
opt-in flag is off, the seven lines starting at `"Python:"` are
deleted. -/
def helpLines (allowPy : Bool) (commands : List (String × CmdInfo)) :
    List String :=
  let custom := sortedByName
    ((commands.filter (fun kv => !kv.2.builtin)).map
      (fun kv => (kv.1, kv.2.description)))
  let customBlock :=
    if custom = [] then [] else "Custom:" :: (custom.map customLine) ++ [""]
  let lines := ["Con5013 Terminal – Available Commands", ""] ++ customBlock ++ coreLines
  if allowPy then lines
  else
    match lines.findIdx? (fun l => l == "Python:") with
    | some i => lines.take i ++ lines.drop (i + 7)
    | none => lines

/-- The eleven built-in registrations of `_initialize_builtin_commands`,
in registration order, after `__init__` marks them `builtin`. `H` gives
each command's handler and `docs` its docstring (the stored description,
since the decorator passes an empty description). -/
def builtinNames : List String :=
  ["help", "clear", "status", "routes", "config", "logs", "system",
   "history", "http", "httpfull", "py"]

/-- The initial command registry (no configured custom commands). -/
def initCommands (H : String → List String → HandlerRet)
    (docs : String → Option String) : List (String × CmdInfo) :=
  builtinNames.map (fun n => (n, { handler := H n, description := docs n, builtin := true }))

/-- Placeholder handlers for concrete registries. -/
def H0 : String → List String → HandlerRet := fun _ _ => .hstr ""

/-- Placeholder docstrings for concrete registries. -/
def docs0 : String → Option String := fun _ => none

/-- The entry the C10 re-registration stores. -/
def c10Info : CmdInfo :=
  { handler := fun _ => .hstr "ok", description := some "My status", builtin := false }

/-- The registry after re-registering `status` at runtime. -/
def c10Commands : List (String × CmdInfo) :=
  (addCommand { commands := initCommands H0 docs0, history := [], historyMax := 100 }
    "status" c10Info.handler "My status" none).commands

/-- C10 counterexample: after re-registering `status`, help lists it in
the Custom section, but the Core section of the help text is static and
still shows the `status` line — the command is not listed in Custom
*instead of* Core, it appears in both sections. -/
theorem C10_counterexample :
    ("  " ++ ljust12 "status" ++ " " ++ "My status") ∈ helpLines false c10Commands
    ∧ ("  " ++ ljust12 "status" ++ " Show application status")
        ∈ helpLines false c10Commands := by
  decide

/-- C10 amended: re-registering a built-in name (here `status`) via
`add_command` replaces its registry entry with one carrying no
`builtin` marker, and the help command then lists it in the Custom
section with its new description; the Core section of the help text is
static, so the built-in name also still appears there. -/
theorem C10_reregister_builtin_lists_custom
    (H : String → List String → HandlerRet) (docs : String → Option String)
    (hist : List HistoryRec) (hmax : Nat)
    (handler : List String → HandlerRet) (desc : String) (hdoc : Option String)
    (hdesc : desc ≠ "") :
    alistGet? "status"
        (addCommand { commands := initCommands H docs, history := hist, historyMax := hmax }
          "status" handler desc hdoc).commands =
      some { handler := handler, description := some desc, builtin := false }
    ∧ ("  " ++ ljust12 "status" ++ " " ++ desc) ∈ helpLines true
        (addCommand { commands := initCommands H docs, history := hist, historyMax := hmax }
          "status" handler desc hdoc).commands
    ∧ ("  " ++ ljust12 "status" ++ " Show application status") ∈ helpLines true
        (addCommand { commands := initCommands H docs, history := hist, historyMax := hmax }
          "status" handler desc hdoc).commands := by
  refine ⟨?_, ?_, ?_⟩ <;>
    simp [addCommand, initCommands, builtinNames, helpLines, alistSet, alistGet?,
      sortedByName, insertByName, customLine, descStr, coreLines, hdesc]

theorem C10_reregister_builtin_lists_custom_witness :
    alistGet? "status" c10Commands = some c10Info
    ∧ ("  " ++ ljust12 "status" ++ " " ++ "My status") ∈ helpLines true c10Commands
    ∧ ("  " ++ ljust12 "status" ++ " Show application status")
        ∈ helpLines true c10Commands :=
  C10_reregister_builtin_lists_custom H0 docs0 [] 100 c10Info.handler
    "My status" none (by decide)

end Con5013
